import Mathlib

/-!
Shallow embedding of the email verifier server (src/server.js) and proofs
about its verification pipeline.

The JavaScript program is an Express server.  Its verification core is a
sequential pipeline: format check, MX resolution, catch-all detection via
synthetic probes, SMTP probing with host and port fallback, verdict
aggregation, and an in-memory result cache.  Network effects (DNS answers,
SMTP probe outcomes, the clock) are modelled by an explicit Network record
of oracles; each network operation the pipeline performs is recorded in a
trace of NetOp values so that claims about which operations run (and in
which order) are statable.  JavaScript strings are modelled by String with
the character-level operations (toLowerCase, trim, split) re-implemented
over the character list so that every definition evaluates by kernel
reduction.  The bounded capacity of the LRU cache (10000 entries) is not
modelled; the time-to-live staleness check is.  The two Date.now() calls
inside the catch-all detector are modelled by a single timestamp taken from
the Network record.
-/

namespace EmailVerifier

/-- Lower-cases every character.  Models the JavaScript toLowerCase call
applied to the request email in src/server.js line 101. -/
def toLowerStr (s : String) : String := ⟨s.data.map Char.toLower⟩

/-- Removes leading and trailing whitespace characters from a list. -/
def trimChars (l : List Char) : List Char :=
  ((l.dropWhile Char.isWhitespace).reverse.dropWhile Char.isWhitespace).reverse

/-- Models the JavaScript trim call in src/server.js line 101. -/
def trimStr (s : String) : String := ⟨trimChars s.data⟩

/-- Splits a character list on a separator character, modelling the
JavaScript String.split method (every occurrence splits, empty segments
kept). -/
def segsOn (sep : Char) : List Char → List (List Char)
  | [] => [[]]
  | c :: cs =>
    match segsOn sep cs with
    | [] => [[]]
    | s :: rest => if c == sep then [] :: s :: rest else (c :: s) :: rest

/-- Segment of the email after the first at sign.  Models the expression
email.split(at)[1] in src/server.js line 124. -/
def domainOf (email : String) : String := ⟨((segsOn '@' email.data).drop 1).headD []⟩

/-- Character class of the format regex in src/server.js line 22: any
character that is neither whitespace nor the at sign. -/
def atomChar (c : Char) : Bool := !c.isWhitespace && c != '@'

/-- Backtracking matcher for the regex fragment p+ followed by whatever the
continuation k accepts. -/
def plusThen (p : Char → Bool) (k : List Char → Bool) : List Char → Bool
  | [] => false
  | c :: cs => p c && (k cs || plusThen p k cs)

/-- End anchor of the regex: accepts exactly the empty remainder. -/
def atEnd (l : List Char) : Bool := l.isEmpty

/-- Matcher for the closing regex fragment: a literal dot then one or more
atom characters then the end of the string. -/
def tailDot : List Char → Bool
  | [] => false
  | c :: r => c == '.' && plusThen atomChar atEnd r

/-- Matcher for the regex fragment after the leading atom block: a literal
at sign, one or more atom characters, a dot block. -/
def tailAt : List Char → Bool
  | [] => false
  | c :: r => c == '@' && plusThen atomChar tailDot r

/-- Models isValidFormat in src/server.js lines 21 to 23: the anchored
regex that demands one or more atom characters, an at sign, one or more
atom characters, a dot, and one or more atom characters. -/
def isValidFormat (email : String) : Bool := plusThen atomChar tailAt email.data

/-- Specification-side description of the format language, written from
the words of the spec: some nonempty atom block, an at sign, a nonempty
atom block, a dot, and a final nonempty atom block. -/
def emailShape (l : List Char) : Prop :=
  ∃ x y z : List Char,
    l = x ++ '@' :: (y ++ '.' :: z) ∧
    x ≠ [] ∧ y ≠ [] ∧ z ≠ [] ∧
    x.all atomChar = true ∧ y.all atomChar = true ∧ z.all atomChar = true

/-- DNS mail exchange record as returned by dns.resolveMx. -/
structure MXRecord where
  exchange : String
  priority : Nat
deriving DecidableEq, Repr

/-- Stable insertion of a record into a list already sorted by ascending
priority: the new record goes after every element whose priority is less
than or equal to its own.  Together with sortByPriority this models the
stable JavaScript sort with comparator a.priority - b.priority in
src/server.js line 28. -/
def insertMX (r : MXRecord) : List MXRecord → List MXRecord
  | [] => [r]
  | x :: xs => if x.priority ≤ r.priority then x :: insertMX r xs else r :: x :: xs

/-- Stable ascending sort by priority (insertion sort), modelling the
stable Array.sort of the V8 runtime. -/
def sortByPriority (l : List MXRecord) : List MXRecord :=
  l.foldl (fun acc r => insertMX r acc) []

/-- Protocol stage at which a connection-level failure can occur. -/
inductive SMTPStage where
  | connect
  | greeting
  | upgrade
  | mailCmd
  | rcptCmd
deriving DecidableEq, Repr

/-- Behaviour of the remote server during one SMTP probe, as observed by
the callbacks in smtpVerify (src/server.js lines 35 to 68): either the
error event fires at some stage (connection error or timeout), or the
recipient command is answered with a rejection, or it is accepted. -/
inductive ProbeEvent where
  | errorAt (stage : SMTPStage)
  | rcptRejected (code : Nat) (message : String)
  | rcptAccepted
deriving DecidableEq, Repr

/-- Value with which one SMTP probe resolves.  The implementation in
src/server.js resolves with an object carrying only a success flag and
never a response code, so code is always none. -/
structure ProbeOutcome where
  success : Bool
  code : Option Nat
deriving DecidableEq, Repr

/-- Models smtpVerify in src/server.js lines 35 to 68.  The JavaScript
function returns a promise that is resolved in every branch and rejected in
none: the error handler resolves with success false, a recipient rejection
resolves with success false, acceptance resolves with success true.  The
Except layer records the possibility of a rejected promise; smtpVerify
never uses it. -/
def smtpVerify : ProbeEvent → Except String ProbeOutcome
  | .errorAt _ => .ok { success := false, code := none }
  | .rcptRejected _ _ => .ok { success := false, code := none }
  | .rcptAccepted => .ok { success := true, code := none }

/-- Runs a probe and extracts the resolved value; the error branch is
unreachable because smtpVerify always resolves. -/
def smtpOutcome (ev : ProbeEvent) : ProbeOutcome :=
  match smtpVerify ev with
  | .ok r => r
  | .error _ => { success := false, code := none }

/-- Network behaviour oracle for a single probe: what the remote server
does for a given email, host, port and TLS flag. -/
abbrev ProbeFn := String → String → Nat → Bool → ProbeEvent

/-- Environment of one request: the DNS oracle, the SMTP oracle, and the
clock. -/
structure Network where
  mxLookup : String → Except String (List MXRecord)
  probe : ProbeFn
  now : Nat

/-- Models getMXRecords in src/server.js lines 25 to 32: a resolution
error of any kind yields the empty list, a successful resolution is sorted
ascending by priority. -/
def getMXRecords (net : Network) (domain : String) : List MXRecord :=
  match net.mxLookup domain with
  | .error _ => []
  | .ok l => sortByPriority l

/-- Network operation performed by the pipeline, recorded in traces. -/
inductive NetOp where
  | mxLookup (domain : String)
  | smtpProbe (email : String) (host : String) (port : Nat) (tls : Bool)
deriving DecidableEq, Repr

/-- Fixed port and TLS candidate list of verifyAllMX in src/server.js
lines 73 to 76: port 587 with opportunistic TLS first, then port 25 in
plaintext. -/
def ports : List (Nat × Bool) := [(587, true), (25, false)]

/-- Result object of verifyAllMX: on success it names the host, port and
TLS flag that won; on failure only the success flag is present. -/
structure MXResult where
  success : Bool
  mx : Option String
  port : Option Nat
  tls : Option Bool
deriving DecidableEq, Repr

/-- Failure value returned when every attempt was exhausted. -/
def failMX : MXResult := { success := false, mx := none, port := none, tls := none }

/-- Inner loop of verifyAllMX: tries each candidate of the given list
against one host, returning at the first accepted probe.  The second
component records the probes attempted, in order. -/
def tryPorts (probe : ProbeFn) (email host : String) :
    List (Nat × Bool) → MXResult × List NetOp
  | [] => (failMX, [])
  | pt :: rest =>
    let r := smtpOutcome (probe email host pt.1 pt.2)
    if r.success then
      ({ success := true, mx := some host, port := some pt.1, tls := some pt.2 },
        [NetOp.smtpProbe email host pt.1 pt.2])
    else
      let r2 := tryPorts probe email host rest
      (r2.1, NetOp.smtpProbe email host pt.1 pt.2 :: r2.2)

/-- Models verifyAllMX in src/server.js lines 71 to 85: for each MX record
in list order, try every candidate of ports in order; return at the first
accepted probe; fail after exhausting every combination. -/
def verifyAllMX (probe : ProbeFn) (email : String) :
    List MXRecord → MXResult × List NetOp
  | [] => (failMX, [])
  | mx :: rest =>
    let r := tryPorts probe email mx.exchange ports
    if r.1.success then r
    else
      let r2 := verifyAllMX probe email rest
      (r2.1, r.2 ++ r2.2)

/-- Full attempt schedule of the sequencer: for each host in list order,
every candidate of ports in its fixed order. -/
def attemptsOf (email : String) : List MXRecord → List NetOp
  | [] => []
  | mx :: rest =>
    (ports.map fun pt => NetOp.smtpProbe email mx.exchange pt.1 pt.2) ++
      attemptsOf email rest

/-- Whether the oracle accepts the probe recorded by an operation. -/
def opAccepted (probe : ProbeFn) : NetOp → Bool
  | .smtpProbe e h p t => (smtpOutcome (probe e h p t)).success
  | .mxLookup _ => false

/-- Synthetic address used by the catch-all detector, modelling the
template literal in src/server.js line 90. -/
def fakeEmail (now : Nat) (i : Nat) (domain : String) : String :=
  "nonexist" ++ toString now ++ toString i ++ "@" ++ domain

/-- Loop body of isCatchAll: run the sequencer on each synthetic address
in order, stopping at the first rejection.  The second component records
the addresses actually handed to the sequencer, in order. -/
def runFakes (probe : ProbeFn) (mxs : List MXRecord) : List String → Bool × List String
  | [] => (true, [])
  | f :: rest =>
    if (verifyAllMX probe f mxs).1.success then
      let r2 := runFakes probe mxs rest
      (r2.1, f :: r2.2)
    else (false, [f])

/-- Models isCatchAll in src/server.js lines 88 to 97: two synthetic
addresses on the domain, each passed to the sequencer, short-circuiting on
the first rejection. -/
def isCatchAll (probe : ProbeFn) (now : Nat) (mxs : List MXRecord) (domain : String) :
    Bool × List String :=
  runFakes probe mxs [fakeEmail now 0 domain, fakeEmail now 1 domain]

/-- Probe operations performed by the sequencer runs on the given list of
addresses; used to assemble the catch-all part of the request trace. -/
def probesFor (probe : ProbeFn) (mxs : List MXRecord) : List String → List NetOp
  | [] => []
  | f :: rest => (verifyAllMX probe f mxs).2 ++ probesFor probe mxs rest

/-- Externally visible verification record built by the route handler in
src/server.js lines 107 to 116. -/
structure VerificationResult where
  email : String
  valid_format : Bool
  domain_has_mx : Bool
  smtp_valid : Bool
  is_catch_all : Bool
  status : String
  warnings : List String
  confidence_score : Nat
deriving DecidableEq, Repr

/-- Warning text pushed on the no-MX path (src/server.js line 127). -/
def noMXWarning : String := "No MX records found"

/-- Warning text pushed on the catch-all path (src/server.js line 140). -/
def catchAllWarning : String :=
  "Catch-all domain — mailbox existence cannot be verified"

/-- Warning text pushed when SMTP probing did not confirm the mailbox
(src/server.js line 154). -/
def smtpWarning : String :=
  "SMTP server did not confirm mailbox (could be greylisted, blocked, or deferred)"

/-- Initial result object of the handler (src/server.js lines 107 to
116). -/
def baseResult (email : String) : VerificationResult :=
  { email := email
    valid_format := false
    domain_has_mx := false
    smtp_valid := false
    is_catch_all := false
    status := "invalid"
    warnings := []
    confidence_score := 0 }

/-- Cache entry: the stored result and its insertion time.  Models one
entry of the lru-cache instance of src/server.js line 19. -/
structure CacheEntry where
  value : VerificationResult
  insertedAt : Nat
deriving DecidableEq, Repr

/-- In-memory result cache, keyed by the normalized address.  The bounded
capacity of the LRU store is not modelled; staleness is. -/
abbrev Cache := List (String × CacheEntry)

/-- Time-to-live of a cache entry in milliseconds (src/server.js line
19). -/
def maxAgeMs : Nat := 1000 * 60 * 60

/-- Cache read at a given time: the stored value if present and not stale.
Models the has and get pair of lru-cache, which treat an entry older than
maxAge as absent. -/
def cacheGet (c : Cache) (now : Nat) (k : String) : Option VerificationResult :=
  match c.find? (fun kv => kv.1 == k) with
  | none => none
  | some kv => if now - kv.2.insertedAt ≤ maxAgeMs then some kv.2.value else none

/-- Cache write at a given time: the new entry replaces any previous entry
for the same key. -/
def cacheSet (c : Cache) (now : Nat) (k : String) (v : VerificationResult) : Cache :=
  (k, { value := v, insertedAt := now }) :: c.filter (fun kv => !(kv.1 == k))

/-- HTTP response of the verify route: the input-validation failure or a
JSON-encoded result. -/
inductive HttpResponse where
  | badRequest (error : String)
  | ok (body : VerificationResult)
deriving DecidableEq, Repr

/-- Computation performed by the route handler after the empty check and
the cache check, modelling src/server.js lines 107 to 158 line by line.
The second component is the trace of network operations performed. -/
def computeResult (net : Network) (email : String) : VerificationResult × List NetOp :=
  if isValidFormat email then
    let domain := domainOf email
    let mxRecords := getMXRecords net domain
    if mxRecords.isEmpty then
      ({ baseResult email with valid_format := true, warnings := [noMXWarning] },
        [NetOp.mxLookup domain])
    else
      let ca := isCatchAll net.probe net.now mxRecords domain
      let catchTrace := probesFor net.probe mxRecords ca.2
      if ca.1 then
        ({ baseResult email with
            valid_format := true
            domain_has_mx := true
            is_catch_all := true
            status := "unknown"
            confidence_score := 50
            warnings := [catchAllWarning] },
          NetOp.mxLookup domain :: catchTrace)
      else
        let smtpRes := verifyAllMX net.probe email mxRecords
        if smtpRes.1.success then
          ({ baseResult email with
              valid_format := true
              domain_has_mx := true
              smtp_valid := true
              status := "valid"
              confidence_score := 100 },
            NetOp.mxLookup domain :: (catchTrace ++ smtpRes.2))
        else
          ({ baseResult email with
              valid_format := true
              domain_has_mx := true
              status := "likely_valid"
              confidence_score := 75
              warnings := [smtpWarning] },
            NetOp.mxLookup domain :: (catchTrace ++ smtpRes.2))
  else (baseResult email, [])

/-- Normalization of the request body field, modelling src/server.js line
101: default to the empty string, lower-case, trim. -/
def normalizeEmail (body : Option String) : String := trimStr (toLowerStr (body.getD ""))

/-- Models the whole verify route of src/server.js lines 100 to 159:
reject an empty normalized address with a 400 response, serve a fresh
cache entry unchanged, otherwise compute, cache and return the result. -/
def verifyHandler (net : Network) (cache : Cache) (body : Option String) :
    HttpResponse × Cache × List NetOp :=
  let email := normalizeEmail body
  if email.isEmpty then (HttpResponse.badRequest "Email is required", cache, [])
  else
    match cacheGet cache net.now email with
    | some v => (HttpResponse.ok v, cache, [])
    | none =>
      let r := computeResult net email
      (HttpResponse.ok r.1, cacheSet cache net.now email r.1, r.2)

/-- Specification-side decision table for status and confidence, written
from the words of the spec: evaluated top-down, first match wins. -/
def specStatusConfidence (vf mx ca sv : Bool) : String × Nat :=
  if vf = false then ("invalid", 0)
  else if mx = false then ("invalid", 0)
  else if ca = true then ("unknown", 50)
  else if sv = true then ("valid", 100)
  else ("likely_valid", 75)

/-- Specification-side warnings column of the decision table. -/
def specWarnings (vf mx ca sv : Bool) : List String :=
  if vf = false then []
  else if mx = false then [noMXWarning]
  else if ca = true then [catchAllWarning]
  else if sv = true then []
  else [smtpWarning]

/-- Oracle fixture: a server that rejects every recipient. -/
def probeRejectAll : ProbeFn := fun _ _ _ _ => ProbeEvent.rcptRejected 550 "mailbox unavailable"

/-- Oracle fixture: a server that accepts every recipient. -/
def probeAcceptAll : ProbeFn := fun _ _ _ _ => ProbeEvent.rcptAccepted

/-- Oracle fixture: every connection attempt fails. -/
def probeConnFail : ProbeFn := fun _ _ _ _ => ProbeEvent.errorAt SMTPStage.connect

/-- Fixture MX record. -/
def mx1 : MXRecord := { exchange := "mx1.b.c", priority := 10 }

/-- Fixture network on which every DNS resolution fails. -/
def netNoMX : Network :=
  { mxLookup := fun _ => Except.error "ENOTFOUND", probe := probeConnFail, now := 5 }

/-- Fixture network with one MX host whose server rejects every
recipient. -/
def netOne : Network :=
  { mxLookup := fun _ => Except.ok [mx1], probe := probeRejectAll, now := 5 }

/-- Fixture network with one MX host whose server accepts every
recipient. -/
def netAccept : Network :=
  { mxLookup := fun _ => Except.ok [mx1], probe := probeAcceptAll, now := 5 }

/-- Record invariant claimed for every result the server returns or
caches. -/
def resultInv (r : VerificationResult) : Prop :=
  (r.confidence_score = 0 ∨ r.confidence_score = 50 ∨
    r.confidence_score = 75 ∨ r.confidence_score = 100) ∧
  (r.status = "invalid" ∨ r.status = "unknown" ∨
    r.status = "likely_valid" ∨ r.status = "valid") ∧
  (r.smtp_valid = true → r.domain_has_mx = true) ∧
  (r.domain_has_mx = true → r.valid_format = true) ∧
  r.warnings.length ≤ 1

/-! ## Format validator -/

/-- Correctness of the backtracking plus-matcher: it accepts exactly the
lists that decompose into a nonempty block satisfying p followed by a
remainder accepted by the continuation. -/
theorem plusThen_eq_true_iff (p : Char → Bool) (k : List Char → Bool) :
    ∀ l : List Char, plusThen p k l = true ↔
      ∃ x y : List Char, l = x ++ y ∧ x ≠ [] ∧ x.all p = true ∧ k y = true := by
  intro l
  induction l with
  | nil =>
    constructor
    · intro h; simp [plusThen] at h
    · rintro ⟨x, y, h, hx, -, -⟩
      exact absurd (List.append_eq_nil.mp h.symm).1 hx
  | cons c cs ih =>
    constructor
    · intro h
      simp only [plusThen, Bool.and_eq_true, Bool.or_eq_true] at h
      rcases h with ⟨hp, hk | hrec⟩
      · exact ⟨[c], cs, rfl, by simp, by simp [hp], hk⟩
      · rcases ih.mp hrec with ⟨x, y, heq, hx, hall, hky⟩
        refine ⟨c :: x, y, by simp [heq], by simp, ?_, hky⟩
        simp [List.all_cons, hp, hall]
    · rintro ⟨x, y, heq, hx, hall, hky⟩
      cases x with
      | nil => exact absurd rfl hx
      | cons a xs =>
        injection heq with h1 h2
        subst h1
        simp only [List.all_cons, Bool.and_eq_true] at hall
        simp only [plusThen, Bool.and_eq_true, Bool.or_eq_true]
        refine ⟨hall.1, ?_⟩
        cases xs with
        | nil =>
          left
          simpa [h2] using hky
        | cons b bs =>
          right
          exact ih.mpr ⟨b :: bs, y, h2, by simp, hall.2, hky⟩

/-- Characterization of the closing fragment: a literal dot followed by a
nonempty atom block running to the end of the string. -/
theorem tailDot_eq_true_iff (l : List Char) :
    tailDot l = true ↔ ∃ z, l = '.' :: z ∧ z ≠ [] ∧ z.all atomChar = true := by
  cases l with
  | nil => simp [tailDot]
  | cons c r =>
    simp only [tailDot, Bool.and_eq_true, beq_iff_eq]
    constructor
    · rintro ⟨rfl, hrest⟩
      rcases (plusThen_eq_true_iff _ _ r).mp hrest with ⟨x, y, heq, hx, hall, hky⟩
      have hy : y = [] := by
        simpa [atEnd, List.isEmpty_iff] using hky
      subst hy
      rw [List.append_nil] at heq
      exact ⟨x, by rw [heq], hx, hall⟩
    · rintro ⟨z, heq, hz, hall⟩
      injection heq with h1 h2
      subst h1
      rw [h2]
      exact ⟨rfl, (plusThen_eq_true_iff _ _ z).mpr ⟨z, [], by simp, hz, hall, by simp [atEnd]⟩⟩

/-- Characterization of the fragment after the leading block: a literal at
sign, a nonempty atom block, a dot, and a final nonempty atom block. -/
theorem tailAt_eq_true_iff (l : List Char) :
    tailAt l = true ↔ ∃ y z, l = '@' :: (y ++ '.' :: z) ∧ y ≠ [] ∧ z ≠ [] ∧
      y.all atomChar = true ∧ z.all atomChar = true := by
  cases l with
  | nil => simp [tailAt]
  | cons c r =>
    simp only [tailAt, Bool.and_eq_true, beq_iff_eq]
    constructor
    · rintro ⟨rfl, hrest⟩
      rcases (plusThen_eq_true_iff _ _ r).mp hrest with ⟨x, y, heq, hx, hall, hky⟩
      rcases tailDot_eq_true_iff y |>.mp hky with ⟨z, rfl, hz, hallz⟩
      subst heq
      exact ⟨x, z, rfl, hx, hz, hall, hallz⟩
    · rintro ⟨y, z, heq, hy, hz, hally, hallz⟩
      injection heq with h1 h2
      subst h1
      subst h2
      refine ⟨rfl, (plusThen_eq_true_iff _ _ _).mpr
        ⟨y, '.' :: z, rfl, hy, hally, tailDot_eq_true_iff _ |>.mpr ⟨z, rfl, hz, hallz⟩⟩⟩

/-- Language of the format validator: it accepts exactly the strings of
the shape demanded by the regex of src/server.js line 22. -/
theorem isValidFormat_eq_true_iff (s : String) :
    isValidFormat s = true ↔ emailShape s.data := by
  unfold isValidFormat emailShape
  rw [plusThen_eq_true_iff]
  constructor
  · rintro ⟨x, y, heq, hx, hall, hky⟩
    rcases tailAt_eq_true_iff y |>.mp hky with ⟨b, z, rfl, hb, hz, hallb, hallz⟩
    exact ⟨x, b, z, heq, hx, hb, hz, hall, hallb, hallz⟩
  · rintro ⟨x, b, z, heq, hx, hb, hz, hall, hallb, hallz⟩
    exact ⟨x, '@' :: (b ++ '.' :: z), heq, hx, hall,
      tailAt_eq_true_iff _ |>.mpr ⟨b, z, rfl, hb, hz, hallb, hallz⟩⟩

/-- Any list of the accepted shape contains an at sign and a dot. -/
theorem emailShape_mem (l : List Char) (h : emailShape l) : '@' ∈ l ∧ '.' ∈ l := by
  rcases h with ⟨x, y, z, rfl, -, -, -, -, -, -⟩
  constructor <;> simp

/-- Evaluation of the pipeline on a badly formatted address: the format
gate short-circuits everything. -/
theorem computeResult_of_bad_format (net : Network) (email : String)
    (h : isValidFormat email = false) :
    computeResult net email = (baseResult email, []) := by
  simp [computeResult, h]

/-- C9: the format validator is a pure boolean function accepting exactly
the strings made of a nonempty block of non-whitespace non-at characters,
an at sign, such a block, a dot, and such a block; and for every input
missing the at sign or missing the dot, valid_format is false and the
computed result has status invalid with confidence_score 0. -/
theorem format_validator_language (net : Network) (s : String) :
    (isValidFormat s = true ↔ emailShape s.data) ∧
    (('@' ∉ s.data ∨ '.' ∉ s.data) →
      isValidFormat s = false ∧
      (computeResult net s).1.valid_format = false ∧
      (computeResult net s).1.status = "invalid" ∧
      (computeResult net s).1.confidence_score = 0) := by
  refine ⟨isValidFormat_eq_true_iff s, ?_⟩
  intro hmiss
  have hvf : isValidFormat s = false := by
    cases hcase : isValidFormat s with
    | false => rfl
    | true =>
      have hshape := (isValidFormat_eq_true_iff s).mp hcase
      have hmem := emailShape_mem s.data hshape
      rcases hmiss with h | h
      · exact absurd hmem.1 h
      · exact absurd hmem.2 h
  rw [computeResult_of_bad_format net s hvf]
  exact ⟨hvf, rfl, rfl, rfl⟩

/-- Witness for C9 at the concrete input "ab", which has no at sign. -/
theorem format_validator_language_witness :
    isValidFormat "ab" = false ∧
    (computeResult netNoMX "ab").1.status = "invalid" ∧
    (computeResult netNoMX "ab").1.confidence_score = 0 := by
  have h := (format_validator_language netNoMX "ab").2 (Or.inl (by decide))
  exact ⟨h.1, h.2.2.1, h.2.2.2⟩

/-! ## SMTP probe -/

/-- C5: a single SMTP probe always resolves to a value and never raises:
every behaviour of the remote server, including a connection-level error
or timeout at any stage and an explicit protocol rejection, resolves the
promise with an outcome carrying no response code, and the outcome is a
success exactly when the recipient was accepted. -/
theorem probe_always_resolves (ev : ProbeEvent) :
    ∃ r : ProbeOutcome, smtpVerify ev = Except.ok r ∧ r.code = none ∧
      (r.success = true ↔ ev = ProbeEvent.rcptAccepted) := by
  cases ev with
  | errorAt st => exact ⟨_, rfl, rfl, by simp⟩
  | rcptRejected c m => exact ⟨_, rfl, rfl, by simp⟩
  | rcptAccepted => exact ⟨_, rfl, rfl, by simp⟩

/-! ## Probe candidate policy list -/

/-- C4 counterexample: the candidate list of src/server.js does not have
the three claimed entries 587, 465, 25; the implicit-TLS port 465 is never
tried. -/
theorem candidate_list_not_three : ¬ (ports.map Prod.fst = [587, 465, 25]) := by
  decide

/-- C4 (amended): the probe-candidate policy list tried per MX host is
fixed (not derived from DNS) and has exactly two entries in this order:
the opportunistic-TLS submission port 587, then plaintext port 25; there
is no implicit-TLS 465 candidate.  For any single host, a fully rejecting
oracle receives exactly these two probes in this order. -/
theorem candidate_list_two_entries :
    ports = [(587, true), (25, false)] ∧
    ∀ (probe : ProbeFn) (email host : String) (prio : Nat),
      (∀ e h p t, (smtpOutcome (probe e h p t)).success = false) →
      (verifyAllMX probe email [{ exchange := host, priority := prio }]).2 =
        [NetOp.smtpProbe email host 587 true, NetOp.smtpProbe email host 25 false] := by
  refine ⟨rfl, ?_⟩
  intro probe email host prio hrej
  simp [verifyAllMX, tryPorts, ports, hrej]

/-- Witness for C4 (amended) at a concrete host and rejecting oracle. -/
theorem candidate_list_two_entries_witness :
    (verifyAllMX probeRejectAll "a@b.c" [{ exchange := "mx1.b.c", priority := 10 }]).2 =
      [NetOp.smtpProbe "a@b.c" "mx1.b.c" 587 true,
       NetOp.smtpProbe "a@b.c" "mx1.b.c" 25 false] :=
  candidate_list_two_entries.2 probeRejectAll "a@b.c" "mx1.b.c" 10 (fun _ _ _ _ => rfl)

/-! ## Catch-all detector -/

/-- The two synthetic addresses differ: the index digit just before the at
sign is 0 in one and 1 in the other. -/
theorem fakeEmail_zero_ne_one (now : Nat) (domain : String) :
    fakeEmail now 0 domain ≠ fakeEmail now 1 domain := by
  intro he
  have hd := congrArg String.data he
  have h0 : (toString (0 : Nat)).data = ['0'] := rfl
  have h1 : (toString (1 : Nat)).data = ['1'] := rfl
  have hat : ("@" : String).data = ['@'] := rfl
  simp only [fakeEmail, String.data_append, h0, h1, hat, List.append_assoc] at hd
  have h2 := List.append_cancel_left hd
  have h3 := List.append_cancel_left h2
  injection h3 with h4 h5
  exact absurd h4 (by decide)

/-- C2: for every MX record list and domain, the catch-all detector
synthesizes exactly two distinct recipient addresses on that domain,
returns true exactly when the fallback sequencer reports acceptance for
both, and when the first synthetic address is rejected it returns false
with the sequencer never run on the second address (the list of addresses
handed to the sequencer is exactly the first one). -/
theorem catchAll_detector_spec (probe : ProbeFn) (now : Nat) (mxs : List MXRecord)
    (domain : String) :
    fakeEmail now 0 domain ≠ fakeEmail now 1 domain ∧
    (∃ lp0, fakeEmail now 0 domain = lp0 ++ "@" ++ domain) ∧
    (∃ lp1, fakeEmail now 1 domain = lp1 ++ "@" ++ domain) ∧
    ((isCatchAll probe now mxs domain).1 = true ↔
      ((verifyAllMX probe (fakeEmail now 0 domain) mxs).1.success = true ∧
        (verifyAllMX probe (fakeEmail now 1 domain) mxs).1.success = true)) ∧
    ((verifyAllMX probe (fakeEmail now 0 domain) mxs).1.success = false →
      isCatchAll probe now mxs domain = (false, [fakeEmail now 0 domain])) := by
  refine ⟨fakeEmail_zero_ne_one now domain,
    ⟨"nonexist" ++ toString now ++ toString 0, rfl⟩,
    ⟨"nonexist" ++ toString now ++ toString 1, rfl⟩, ?_, ?_⟩
  · by_cases h0 : (verifyAllMX probe (fakeEmail now 0 domain) mxs).1.success = true
    · by_cases h1 : (verifyAllMX probe (fakeEmail now 1 domain) mxs).1.success = true
      · simp [isCatchAll, runFakes, h0, h1]
      · simp [isCatchAll, runFakes, h0, h1]
    · simp [isCatchAll, runFakes, h0]
  · intro h0
    simp [isCatchAll, runFakes, h0]

/-- Witness for C2 with a fully rejecting oracle: the detector reports
false having consulted the sequencer only on the first synthetic
address. -/
theorem catchAll_detector_spec_witness :
    isCatchAll probeRejectAll 5 [mx1] "b.c" = (false, [fakeEmail 5 0 "b.c"]) :=
  (catchAll_detector_spec probeRejectAll 5 [mx1] "b.c").2.2.2.2 (by decide)

/-! ## MX resolver -/

/-- Membership through stable insertion. -/
theorem mem_insertMX {a r : MXRecord} {l : List MXRecord} :
    a ∈ insertMX r l ↔ a = r ∨ a ∈ l := by
  induction l with
  | nil => simp [insertMX]
  | cons x xs ih =>
    simp only [insertMX]
    split
    · simp only [List.mem_cons, ih]
      exact or_left_comm
    · exact List.mem_cons

/-- Insertion into a list sorted ascending by priority stays sorted. -/
theorem pairwise_insertMX {r : MXRecord} {l : List MXRecord}
    (h : l.Pairwise (fun a b => a.priority ≤ b.priority)) :
    (insertMX r l).Pairwise (fun a b => a.priority ≤ b.priority) := by
  induction l with
  | nil => simp [insertMX]
  | cons x xs ih =>
    rcases List.pairwise_cons.mp h with ⟨hx, hxs⟩
    simp only [insertMX]
    split
    case isTrue hle =>
      refine List.pairwise_cons.mpr ⟨?_, ih hxs⟩
      intro b hb
      rcases mem_insertMX.mp hb with rfl | hbxs
      · exact hle
      · exact hx b hbxs
    case isFalse hgt =>
      have hrx : r.priority ≤ x.priority := Nat.le_of_not_le hgt
      refine List.pairwise_cons.mpr ⟨?_, h⟩
      intro b hb
      rcases List.mem_cons.mp hb with rfl | hbxs
      · exact hrx
      · exact le_trans hrx (hx b hbxs)

/-- Insertion is a permutation of consing. -/
theorem perm_insertMX (r : MXRecord) (l : List MXRecord) :
    List.Perm (insertMX r l) (r :: l) := by
  induction l with
  | nil => exact List.Perm.refl _
  | cons x xs ih =>
    simp only [insertMX]
    split
    · exact (ih.cons x).trans (List.Perm.swap r x xs)
    · exact List.Perm.refl _

/-- Stability of insertion on a sorted accumulator: the elements of any
given priority keep their relative order, with the new record joining the
end of its priority class. -/
theorem filter_insertMX (r : MXRecord) (p : Nat) {l : List MXRecord}
    (h : l.Pairwise (fun a b => a.priority ≤ b.priority)) :
    (insertMX r l).filter (fun m => m.priority == p) =
      l.filter (fun m => m.priority == p) ++ (if r.priority == p then [r] else []) := by
  induction l with
  | nil =>
    cases hrp : r.priority == p <;> simp [insertMX, List.filter, hrp]
  | cons x xs ih =>
    rcases List.pairwise_cons.mp h with ⟨hx, hxs⟩
    simp only [insertMX]
    split
    case isTrue hle =>
      cases hxp : x.priority == p <;>
        simp [List.filter, hxp, ih hxs, List.cons_append]
    case isFalse hgt =>
      have hrx : r.priority < x.priority := Nat.lt_of_not_le hgt
      cases hrp : r.priority == p with
      | false => simp [List.filter, hrp]
      | true =>
        have hp : r.priority = p := beq_iff_eq.mp hrp
        have hnone : (x :: xs).filter (fun m => m.priority == p) = [] := by
          rw [List.filter_eq_nil_iff]
          intro a ha
          have hlt : p < a.priority := by
            rcases List.mem_cons.mp ha with rfl | hmem
            · exact hp ▸ hrx
            · exact hp ▸ lt_of_lt_of_le hrx (hx a hmem)
          simp [Nat.ne_of_gt hlt]
        have hcons : List.filter (fun m => m.priority == p) (r :: x :: xs) =
            r :: List.filter (fun m => m.priority == p) (x :: xs) :=
          List.filter_cons_of_pos (l := x :: xs) hrp
        rw [hcons, hnone]
        simp

/-- Invariants of the insertion-sort loop: sortedness, stability per
priority class, and permutation with the input. -/
theorem sortLoop_spec (l : List MXRecord) :
    ∀ acc : List MXRecord, acc.Pairwise (fun a b => a.priority ≤ b.priority) →
      (l.foldl (fun a r => insertMX r a) acc).Pairwise (fun a b => a.priority ≤ b.priority) ∧
      (∀ p, (l.foldl (fun a r => insertMX r a) acc).filter (fun m => m.priority == p) =
        acc.filter (fun m => m.priority == p) ++ l.filter (fun m => m.priority == p)) ∧
      List.Perm (l.foldl (fun a r => insertMX r a) acc) (acc ++ l) := by
  induction l with
  | nil =>
    intro acc h
    exact ⟨h, by simp, by simp⟩
  | cons r l ih =>
    intro acc h
    have hins := pairwise_insertMX (r := r) h
    obtain ⟨h1, h2, h3⟩ := ih (insertMX r acc) hins
    refine ⟨h1, ?_, ?_⟩
    · intro p
      rw [List.foldl_cons, h2 p, filter_insertMX r p h]
      cases hrp : r.priority == p <;> simp [List.filter, hrp, List.append_assoc]
    · rw [List.foldl_cons]
      refine h3.trans ?_
      refine ((perm_insertMX r acc).append_right l).trans ?_
      rw [List.cons_append]
      exact List.perm_middle.symm

/-- C6: the MX resolver never fails outward: on any resolution error it
returns the empty sequence, and on success it returns the same records
sorted ascending by priority with ties left in resolver-returned order. -/
theorem mx_resolver_total_sorted_stable (net : Network) (domain : String) :
    (∀ e, net.mxLookup domain = Except.error e → getMXRecords net domain = []) ∧
    (∀ l, net.mxLookup domain = Except.ok l →
      (getMXRecords net domain).Pairwise (fun a b => a.priority ≤ b.priority) ∧
      List.Perm (getMXRecords net domain) l ∧
      (∀ p, (getMXRecords net domain).filter (fun m => m.priority == p) =
        l.filter (fun m => m.priority == p))) := by
  constructor
  · intro e he
    simp [getMXRecords, he]
  · intro l hl
    obtain ⟨h1, h2, h3⟩ := sortLoop_spec l [] (by simp)
    have hget : getMXRecords net domain = sortByPriority l := by
      simp [getMXRecords, hl]
    rw [hget]
    exact ⟨h1, by simpa using h3, fun p => by simpa using h2 p⟩

/-- Witness for C6: a failing resolution yields the empty list, and a
successful one is sorted. -/
theorem mx_resolver_total_sorted_stable_witness :
    getMXRecords netNoMX "b.c" = [] ∧
    (getMXRecords netOne "b.c").Pairwise (fun a b => a.priority ≤ b.priority) :=
  ⟨(mx_resolver_total_sorted_stable netNoMX "b.c").1 "ENOTFOUND" rfl,
    ((mx_resolver_total_sorted_stable netOne "b.c").2 [mx1] rfl).1⟩

/-! ## Host fallback sequencer -/

/-- Behaviour of the inner candidate loop: on failure it has attempted
every candidate against the host in order, none accepted; on success its
trace is the schedule cut at the first accepted probe. -/
theorem tryPorts_spec (probe : ProbeFn) (email host : String) :
    ∀ cands : List (Nat × Bool),
      ((tryPorts probe email host cands).1.success = false →
        (tryPorts probe email host cands).1 = failMX ∧
        (tryPorts probe email host cands).2 =
          cands.map (fun pt => NetOp.smtpProbe email host pt.1 pt.2) ∧
        ∀ op ∈ (tryPorts probe email host cands).2, opAccepted probe op = false) ∧
      ((tryPorts probe email host cands).1.success = true →
        ∃ pre op suf,
          cands.map (fun pt => NetOp.smtpProbe email host pt.1 pt.2) = pre ++ op :: suf ∧
          (tryPorts probe email host cands).2 = pre ++ [op] ∧
          opAccepted probe op = true ∧
          ∀ o ∈ pre, opAccepted probe o = false) := by
  intro cands
  induction cands with
  | nil =>
    constructor
    · intro h
      refine ⟨rfl, rfl, ?_⟩
      intro op hop
      simp [tryPorts] at hop
    · intro h
      simp [tryPorts, failMX] at h
  | cons pt rest ih =>
    cases hr : (smtpOutcome (probe email host pt.1 pt.2)).success with
    | true =>
      have heq : tryPorts probe email host (pt :: rest) =
          ({ success := true, mx := some host, port := some pt.1, tls := some pt.2 },
            [NetOp.smtpProbe email host pt.1 pt.2]) := by
        simp [tryPorts, hr]
      constructor
      · intro h
        rw [heq] at h
        simp at h
      · intro h
        refine ⟨[], NetOp.smtpProbe email host pt.1 pt.2,
          rest.map (fun pt => NetOp.smtpProbe email host pt.1 pt.2),
          by simp, by simp [heq], ?_, by simp⟩
        simpa [opAccepted] using hr
    | false =>
      have heq : tryPorts probe email host (pt :: rest) =
          ((tryPorts probe email host rest).1,
            NetOp.smtpProbe email host pt.1 pt.2 :: (tryPorts probe email host rest).2) := by
        simp [tryPorts, hr]
      constructor
      · intro h
        rw [heq] at h
        obtain ⟨h1, h2, h3⟩ := ih.1 h
        refine ⟨by rw [heq]; exact h1, ?_, ?_⟩
        · rw [heq]
          simp [h2]
        · rw [heq]
          intro op hop
          rcases List.mem_cons.mp hop with rfl | hmem
          · simpa [opAccepted] using hr
          · exact h3 op hmem
      · intro h
        rw [heq] at h
        obtain ⟨pre, op, suf, e1, e2, e3, e4⟩ := ih.2 h
        refine ⟨NetOp.smtpProbe email host pt.1 pt.2 :: pre, op, suf, ?_, ?_, e3, ?_⟩
        · simp [e1]
        · rw [heq]
          simp [e2]
        · intro o ho
          rcases List.mem_cons.mp ho with rfl | hmem
          · simpa [opAccepted] using hr
          · exact e4 o hmem

/-- C3: the sequencer attempts the pairs of attemptsOf (hosts in list
order, and for each host every entry of the fixed candidate list in its
fixed order, a host fully exhausted before the next): on failure its trace
is the whole schedule with no accepted probe, and on success its trace is
the schedule cut exactly at the first accepted probe, with nothing
attempted after it. -/
theorem sequencer_order_spec (probe : ProbeFn) (email : String) (mxs : List MXRecord) :
    ((verifyAllMX probe email mxs).1.success = false →
      (verifyAllMX probe email mxs).2 = attemptsOf email mxs ∧
      ∀ op ∈ attemptsOf email mxs, opAccepted probe op = false) ∧
    ((verifyAllMX probe email mxs).1.success = true →
      ∃ pre op suf,
        attemptsOf email mxs = pre ++ op :: suf ∧
        (verifyAllMX probe email mxs).2 = pre ++ [op] ∧
        opAccepted probe op = true ∧
        ∀ o ∈ pre, opAccepted probe o = false) := by
  induction mxs with
  | nil =>
    constructor
    · intro h
      refine ⟨rfl, ?_⟩
      intro op hop
      simp [attemptsOf] at hop
    · intro h
      simp [verifyAllMX, failMX] at h
  | cons mx rest ih =>
    have hatt : attemptsOf email (mx :: rest) =
        ports.map (fun pt => NetOp.smtpProbe email mx.exchange pt.1 pt.2) ++
          attemptsOf email rest := rfl
    cases hr : (tryPorts probe email mx.exchange ports).1.success with
    | true =>
      have heq : verifyAllMX probe email (mx :: rest) =
          tryPorts probe email mx.exchange ports := by
        simp [verifyAllMX, hr]
      obtain ⟨pre, op, suf, e1, e2, e3, e4⟩ :=
        (tryPorts_spec probe email mx.exchange ports).2 hr
      constructor
      · intro h
        rw [heq, hr] at h
        exact absurd h (by decide)
      · intro h
        refine ⟨pre, op, suf ++ attemptsOf email rest, ?_, ?_, e3, e4⟩
        · rw [hatt, e1]
          simp [List.append_assoc]
        · rw [heq, e2]
    | false =>
      have heq : verifyAllMX probe email (mx :: rest) =
          ((verifyAllMX probe email rest).1,
            (tryPorts probe email mx.exchange ports).2 ++
              (verifyAllMX probe email rest).2) := by
        simp [verifyAllMX, hr]
      obtain ⟨f1, f2, f3⟩ := (tryPorts_spec probe email mx.exchange ports).1 hr
      constructor
      · intro h
        rw [heq] at h
        obtain ⟨g1, g2⟩ := ih.1 h
        constructor
        · rw [heq, hatt, f2, g1]
        · intro op hop
          rw [hatt] at hop
          rcases List.mem_append.mp hop with hmem | hmem
          · refine f3 op ?_
            rw [f2]
            exact hmem
          · exact g2 op hmem
      · intro h
        rw [heq] at h
        obtain ⟨pre, op, suf, e1, e2, e3, e4⟩ := ih.2 h
        refine ⟨ports.map (fun pt => NetOp.smtpProbe email mx.exchange pt.1 pt.2) ++ pre,
          op, suf, ?_, ?_, e3, ?_⟩
        · rw [hatt, e1, List.append_assoc]
        · rw [heq, f2, e2, List.append_assoc]
        · intro o ho
          rcases List.mem_append.mp ho with hmem | hmem
          · refine f3 o ?_
            rw [f2]
            exact hmem
          · exact e4 o hmem

/-- Witness for C3: the exhaustion branch with a rejecting oracle and the
short-circuit branch with an accepting oracle, at concrete inputs. -/
theorem sequencer_order_spec_witness :
    ((verifyAllMX probeRejectAll "a@b.c" [mx1]).2 = attemptsOf "a@b.c" [mx1] ∧
      ∀ op ∈ attemptsOf "a@b.c" [mx1], opAccepted probeRejectAll op = false) ∧
    (∃ pre op suf,
      attemptsOf "a@b.c" [mx1] = pre ++ op :: suf ∧
      (verifyAllMX probeAcceptAll "a@b.c" [mx1]).2 = pre ++ [op] ∧
      opAccepted probeAcceptAll op = true ∧
      ∀ o ∈ pre, opAccepted probeAcceptAll o = false) :=
  ⟨(sequencer_order_spec probeRejectAll "a@b.c" [mx1]).1 (by decide),
    (sequencer_order_spec probeAcceptAll "a@b.c" [mx1]).2 (by decide)⟩

/-! ## Verdict aggregation and the route handler -/

/-- The computed result always agrees with the specification decision
table, read off its own four signal fields. -/
theorem computeResult_table (net : Network) (email : String) :
    ((computeResult net email).1.status, (computeResult net email).1.confidence_score) =
      specStatusConfidence (computeResult net email).1.valid_format
        (computeResult net email).1.domain_has_mx
        (computeResult net email).1.is_catch_all
        (computeResult net email).1.smtp_valid ∧
    (computeResult net email).1.warnings =
      specWarnings (computeResult net email).1.valid_format
        (computeResult net email).1.domain_has_mx
        (computeResult net email).1.is_catch_all
        (computeResult net email).1.smtp_valid := by
  by_cases hv : isValidFormat email = true
  · by_cases hmx : (getMXRecords net (domainOf email)).isEmpty = true
    · simp [computeResult, hv, hmx, baseResult, specStatusConfidence, specWarnings]
    · by_cases hca : (isCatchAll net.probe net.now (getMXRecords net (domainOf email))
          (domainOf email)).1 = true
      · simp [computeResult, hv, hmx, hca, baseResult, specStatusConfidence, specWarnings]
      · by_cases hsm : (verifyAllMX net.probe email
            (getMXRecords net (domainOf email))).1.success = true
        · simp [computeResult, hv, hmx, hca, hsm, baseResult, specStatusConfidence,
            specWarnings]
        · simp [computeResult, hv, hmx, hca, hsm, baseResult, specStatusConfidence,
            specWarnings]
  · simp [computeResult, hv, baseResult, specStatusConfidence, specWarnings]

/-- Every computed result satisfies the record invariant. -/
theorem computeResult_inv (net : Network) (email : String) :
    resultInv (computeResult net email).1 := by
  by_cases hv : isValidFormat email = true
  · by_cases hmx : (getMXRecords net (domainOf email)).isEmpty = true
    · simp [computeResult, hv, hmx, baseResult, resultInv]
    · by_cases hca : (isCatchAll net.probe net.now (getMXRecords net (domainOf email))
          (domainOf email)).1 = true
      · simp [computeResult, hv, hmx, hca, baseResult, resultInv]
      · by_cases hsm : (verifyAllMX net.probe email
            (getMXRecords net (domainOf email))).1.success = true
        · simp [computeResult, hv, hmx, hca, hsm, baseResult, resultInv]
        · simp [computeResult, hv, hmx, hca, hsm, baseResult, resultInv]
  · simp [computeResult, hv, baseResult, resultInv]

/-- A fresh write is read back unchanged at the same instant. -/
theorem cacheGet_set_self (c : Cache) (now : Nat) (k : String) (v : VerificationResult) :
    cacheGet (cacheSet c now k v) now k = some v := by
  simp [cacheGet, cacheSet, List.find?]

/-- A successful cache read returns the value of some stored entry. -/
theorem cacheGet_mem {c : Cache} {now : Nat} {k : String} {v : VerificationResult}
    (h : cacheGet c now k = some v) : ∃ kv, kv ∈ c ∧ kv.2.value = v := by
  unfold cacheGet at h
  split at h
  · exact absurd h (by simp)
  · rename_i kv hf
    split at h
    · refine ⟨kv, List.mem_of_find?_eq_some hf, ?_⟩
      injection h
    · exact absurd h (by simp)

/-- C1: for every request that reaches the aggregation stage (nonempty
normalized address, cache miss), the returned status, confidence score and
warnings are exactly the deterministic decision-table function of the four
signal fields of the result; no other rule sets them. -/
theorem verdict_follows_decision_table (net : Network) (cache : Cache)
    (body : Option String)
    (hne : (normalizeEmail body).isEmpty = false)
    (hmiss : cacheGet cache net.now (normalizeEmail body) = none) :
    (verifyHandler net cache body).1 =
      HttpResponse.ok (computeResult net (normalizeEmail body)).1 ∧
    ((computeResult net (normalizeEmail body)).1.status,
      (computeResult net (normalizeEmail body)).1.confidence_score) =
      specStatusConfidence (computeResult net (normalizeEmail body)).1.valid_format
        (computeResult net (normalizeEmail body)).1.domain_has_mx
        (computeResult net (normalizeEmail body)).1.is_catch_all
        (computeResult net (normalizeEmail body)).1.smtp_valid ∧
    (computeResult net (normalizeEmail body)).1.warnings =
      specWarnings (computeResult net (normalizeEmail body)).1.valid_format
        (computeResult net (normalizeEmail body)).1.domain_has_mx
        (computeResult net (normalizeEmail body)).1.is_catch_all
        (computeResult net (normalizeEmail body)).1.smtp_valid := by
  refine ⟨?_, (computeResult_table net (normalizeEmail body)).1,
    (computeResult_table net (normalizeEmail body)).2⟩
  simp [verifyHandler, hne, hmiss]

/-- Witness for C1 on a concrete cache-missing request. -/
theorem verdict_follows_decision_table_witness :
    (verifyHandler netNoMX [] (some "a@b.c")).1 =
      HttpResponse.ok (computeResult netNoMX (normalizeEmail (some "a@b.c"))).1 ∧
    ((computeResult netNoMX (normalizeEmail (some "a@b.c"))).1.status,
      (computeResult netNoMX (normalizeEmail (some "a@b.c"))).1.confidence_score) =
      specStatusConfidence
        (computeResult netNoMX (normalizeEmail (some "a@b.c"))).1.valid_format
        (computeResult netNoMX (normalizeEmail (some "a@b.c"))).1.domain_has_mx
        (computeResult netNoMX (normalizeEmail (some "a@b.c"))).1.is_catch_all
        (computeResult netNoMX (normalizeEmail (some "a@b.c"))).1.smtp_valid ∧
    (computeResult netNoMX (normalizeEmail (some "a@b.c"))).1.warnings =
      specWarnings
        (computeResult netNoMX (normalizeEmail (some "a@b.c"))).1.valid_format
        (computeResult netNoMX (normalizeEmail (some "a@b.c"))).1.domain_has_mx
        (computeResult netNoMX (normalizeEmail (some "a@b.c"))).1.is_catch_all
        (computeResult netNoMX (normalizeEmail (some "a@b.c"))).1.smtp_valid :=
  verdict_follows_decision_table netNoMX [] (some "a@b.c") (by decide) rfl

/-- C8: a request whose email field is absent or empty after trimming gets
the 400 response with an error message, with no network operation and no
cache write; every other request gets a 200 response carrying a result. -/
theorem empty_email_rejected (net : Network) (cache : Cache) (body : Option String) :
    ((normalizeEmail body).isEmpty = true →
      verifyHandler net cache body =
        (HttpResponse.badRequest "Email is required", cache, ([] : List NetOp))) ∧
    ((normalizeEmail body).isEmpty = false →
      ∃ r, (verifyHandler net cache body).1 = HttpResponse.ok r) := by
  constructor
  · intro h
    simp [verifyHandler, h]
  · intro h
    cases hcg : cacheGet cache net.now (normalizeEmail body) with
    | some v => exact ⟨v, by simp [verifyHandler, h, hcg]⟩
    | none =>
      exact ⟨(computeResult net (normalizeEmail body)).1, by simp [verifyHandler, h, hcg]⟩

/-- Witness for C8: an absent email field is rejected with 400 leaving the
cache untouched, and a concrete valid request is answered with 200. -/
theorem empty_email_rejected_witness :
    verifyHandler netNoMX [] none =
      (HttpResponse.badRequest "Email is required", ([] : Cache), ([] : List NetOp)) ∧
    ∃ r, (verifyHandler netNoMX [] (some "a@b.c")).1 = HttpResponse.ok r :=
  ⟨(empty_email_rejected netNoMX [] none).1 (by decide),
    (empty_email_rejected netNoMX [] (some "a@b.c")).2 (by decide)⟩

/-- C7: calling verify a second time in immediate succession with the same
address returns the identical stored result (warnings included) from the
cache, with no MX resolution, catch-all probing or SMTP probing performed,
for every second-call network, even one whose DNS and SMTP behaviour
changed. -/
theorem second_call_served_from_cache (net1 net2 : Network) (cache : Cache)
    (body : Option String) (hnow : net2.now = net1.now)
    (hne : (normalizeEmail body).isEmpty = false) :
    verifyHandler net2 (verifyHandler net1 cache body).2.1 body =
      ((verifyHandler net1 cache body).1, (verifyHandler net1 cache body).2.1,
        ([] : List NetOp)) := by
  cases hcg : cacheGet cache net1.now (normalizeEmail body) with
  | some v => simp [verifyHandler, hne, hcg, hnow]
  | none => simp [verifyHandler, hne, hcg, hnow, cacheGet_set_self]

/-- Witness for C7 at a concrete address, with the DNS and SMTP oracles
changed between the two calls. -/
theorem second_call_served_from_cache_witness :
    verifyHandler netOne (verifyHandler netNoMX [] (some "a@b.c")).2.1 (some "a@b.c") =
      ((verifyHandler netNoMX [] (some "a@b.c")).1,
        (verifyHandler netNoMX [] (some "a@b.c")).2.1, ([] : List NetOp)) :=
  second_call_served_from_cache netNoMX netOne [] (some "a@b.c") rfl (by decide)

/-- C10: provided every cached value satisfies the record invariant, every
result the handler returns and every value in the cache it leaves behind
satisfies it: confidence in 0, 50, 75, 100; status among invalid, unknown,
likely_valid, valid; smtp_valid implies domain_has_mx; domain_has_mx
implies valid_format; at most one warning. -/
theorem results_satisfy_invariant (net : Network) (cache : Cache) (body : Option String)
    (hc : ∀ kv ∈ cache, resultInv kv.2.value) :
    (∀ r, (verifyHandler net cache body).1 = HttpResponse.ok r → resultInv r) ∧
    (∀ kv ∈ (verifyHandler net cache body).2.1, resultInv kv.2.value) := by
  by_cases hne : (normalizeEmail body).isEmpty = true
  · constructor
    · intro r hr
      simp [verifyHandler, hne] at hr
    · intro kv hkv
      simp only [verifyHandler, hne, if_true] at hkv
      exact hc kv (by simpa using hkv)
  · have hne2 : (normalizeEmail body).isEmpty = false := by
      cases hcase : (normalizeEmail body).isEmpty
      · rfl
      · exact absurd hcase hne
    cases hcg : cacheGet cache net.now (normalizeEmail body) with
    | some v =>
      constructor
      · intro r hr
        simp [verifyHandler, hne2, hcg] at hr
        obtain ⟨kv, hmem, hval⟩ := cacheGet_mem hcg
        rw [← hr, ← hval]
        exact hc kv hmem
      · intro kv hkv
        simp [verifyHandler, hne2, hcg] at hkv
        exact hc kv hkv
    | none =>
      constructor
      · intro r hr
        simp [verifyHandler, hne2, hcg] at hr
        rw [← hr]
        exact computeResult_inv net (normalizeEmail body)
      · intro kv hkv
        simp only [verifyHandler, hne2, hcg, Bool.false_eq_true, if_false] at hkv
        rw [cacheSet] at hkv
        rcases List.mem_cons.mp hkv with rfl | hmem
        · exact computeResult_inv net (normalizeEmail body)
        · exact hc kv (List.mem_filter.mp hmem).1

/-- Witness for C10 starting from the empty cache at a concrete request. -/
theorem results_satisfy_invariant_witness :
    resultInv (computeResult netNoMX (normalizeEmail (some "a@b.c"))).1 :=
  (results_satisfy_invariant netNoMX [] (some "a@b.c")
      (fun kv h => absurd h (List.not_mem_nil kv))).1
    (computeResult netNoMX (normalizeEmail (some "a@b.c"))).1 (by decide)

end EmailVerifier
